import Mathlib

set_option maxRecDepth 4000

/-!
A shallow embedding of the peppa web dashboard's core (the agent loop in
`web/src/lib/ai-agent.ts`, the emulator facade in `web/src/lib/v86-wrapper.ts`,
the model-client factory in `web/src/lib/ai-models.ts`, and the DeepSeek client),
together with proofs about the embedded operations.

Strings are embedded as `List Char`; the JavaScript regular expression used by
command extraction is embedded as an explicit matcher; the asynchronous turn of
the agent loop is embedded as a pure state transformer over the agent's fields,
with the outside world (screenshots, the upstream completion call, keyboard
injection outcomes) supplied by an environment of oracles.  Thrown JavaScript
exceptions are embedded as `Except` values.
-/

namespace Peppa

/-- Strings of the embedded program, as lists of characters. -/
abbrev Str := List Char

/-- Writes a literal of the embedded string type. -/
def str (s : String) : Str := s.toList

/-- Whitespace test used both for the regex class in the extraction pattern and
for the `trim()` calls of the source (ASCII part of the JavaScript class). -/
def isWs (c : Char) : Bool :=
  c = ' ' || c = '\t' || c = '\n' || c = '\r' || c = '\x0b' || c = '\x0c'

/-- Boolean test that `p` is an initial segment of `s`. -/
def hasPfx : Str → Str → Bool
  | [], _ => true
  | _ :: _, [] => false
  | p :: ps, c :: cs => p = c && hasPfx ps cs

/-- Holds when the string contains no backtick, hence no code fence. -/
def noTick : Str → Bool
  | [] => true
  | c :: cs => !(c = '`') && noTick cs

/-- Removes trailing whitespace (the right half of JavaScript `trim()`). -/
def dropTrailingWs : Str → Str
  | [] => []
  | c :: cs =>
    let r := dropTrailingWs cs
    if r = [] && isWs c then [] else c :: r

/-- Embeds JavaScript `String.prototype.trim` on the embedded strings. -/
def trimStr (s : Str) : Str := dropTrailingWs (s.dropWhile isWs)

/-- The three-backtick fence delimiter of the extraction pattern. -/
def tick3 : Str := ['`', '`', '`']

/-- Scans for the first occurrence of a three-backtick fence; returns the text
before it and the text after it.  This is the search step of the JavaScript
regex engine for the literal part of the pattern in
`AIAgent.extractCommands` (ai-agent.ts lines 444-456). -/
def splitFence : Str → Option (Str × Str)
  | [] => none
  | c :: cs =>
    if hasPfx tick3 (c :: cs) then some ([], cs.drop 2)
    else
      match splitFence cs with
      | some (pre, post) => some (c :: pre, post)
      | none => none

/-- Embeds the optional language tag `(?:bash|shell)?` of the extraction
pattern: the alternation consumes `bash`, else `shell`, else nothing.  (The
tags and the whitespace class contain no backtick, so the regex engine never
needs to backtrack over this choice to find a closing fence.) -/
def stripTag (s : Str) : Str :=
  if hasPfx (str "bash") s then s.drop 4
  else if hasPfx (str "shell") s then s.drop 5
  else s

/-- One regex.exec step of the global extraction pattern (three backticks, an
optional bash/shell tag, greedy whitespace, then a lazy capture up to three
closing backticks): finds the opening fence, strips an optional language tag
and whitespace, then captures minimally up to the first closing fence.
Returns the capture and the text after the match, or `none` when no match
remains. -/
def execFence (s : Str) : Option (Str × Str) :=
  match splitFence s with
  | none => none
  | some (_, afterOpen) =>
    match splitFence ((stripTag afterOpen).dropWhile isWs) with
    | none => none
    | some (cap, rest) => some (cap, rest)

/-- The `while ((match = regex.exec(response)) !== null)` loop.  The fuel
argument bounds the number of iterations; every successful match consumes at
least the six fence characters, so fuel equal to the input length suffices. -/
def extractFenced : Nat → Str → List Str
  | 0, _ => []
  | Nat.succ fuel, s =>
    match execFence s with
    | none => []
    | some (cap, rest) => cap :: extractFenced fuel rest

/-- Embeds `AIAgent.extractCommands` (ai-agent.ts lines 444-456): every raw
capture is trimmed and pushed only when the trimmed text is non-empty. -/
def extractCommands (response : Str) : List Str :=
  ((extractFenced response.length response).map trimStr).filter
    (fun c => !(List.isEmpty c))

/-! ## Emulator Control Facade (`web/src/lib/v86-wrapper.ts`) -/

/-- The engine option subset produced by `V86Wrapper.getOSOptions`
(v86-wrapper.ts lines 190-221): boot media, firmware paths and the boot-order
byte.  Absent fields are `none`. -/
structure V86OSOpts where
  cdrom : Option Str
  hda : Option Str
  fda : Option Str
  bios : Option Str
  vga_bios : Option Str
  boot_order : Option Nat
deriving DecidableEq

/-- Embeds `V86Wrapper.getOSOptions`: a switch on `this.osType.toLowerCase()`
mapping each recognized OS name to its asset paths and boot-order byte, with
the default case repeating the linux mapping. -/
def getOSOptions (osType : Str) : V86OSOpts :=
  let t := osType.map Char.toLower
  if t = str "linux" then
    { cdrom := some (str "/v86/images/linux.iso"), hda := none, fda := none
      bios := some (str "/v86/bios/seabios.bin")
      vga_bios := some (str "/v86/bios/vgabios.bin")
      boot_order := some 0x132 }
  else if t = str "windows" then
    { cdrom := none, hda := some (str "/v86/images/windows.img"), fda := none
      bios := some (str "/v86/bios/seabios.bin")
      vga_bios := some (str "/v86/bios/vgabios.bin")
      boot_order := some 0x123 }
  else if t = str "freedos" then
    { cdrom := none, hda := none, fda := some (str "/v86/images/freedos.img")
      bios := some (str "/v86/bios/seabios.bin")
      vga_bios := some (str "/v86/bios/vgabios.bin")
      boot_order := some 0x321 }
  else
    { cdrom := some (str "/v86/images/linux.iso"), hda := none, fda := none
      bios := some (str "/v86/bios/seabios.bin")
      vga_bios := some (str "/v86/bios/vgabios.bin")
      boot_order := some 0x132 }

/-- The published snapshot type `V86WrapperState` of the facade. -/
structure V86WrapperState where
  isRunning : Bool
  osType : Str
  screenshot : Option Str
  status : Str
  memoryUsage : Nat
  networkActive : Bool
  bootProgress : Nat
  lastAction : Str
deriving DecidableEq

/-- The subscriber-facing fields of a `V86Wrapper` instance.  Callbacks are
identified by numbers (the embedding of distinct function references); the
remaining fields are those read by `getState`. -/
structure WrapperM where
  isRunning : Bool
  osType : Str
  lastScreenshot : Option Str
  status : Str
  memoryUsage : Nat
  networkActive : Bool
  bootProgress : Nat
  lastAction : Str
  subs : List Nat
deriving DecidableEq

/-- Embeds `V86Wrapper.getState`: assembles the published snapshot from the
instance fields (the subscriber list is not part of the snapshot). -/
def wGetState (w : WrapperM) : V86WrapperState :=
  { isRunning := w.isRunning, osType := w.osType
    screenshot := w.lastScreenshot, status := w.status
    memoryUsage := w.memoryUsage, networkActive := w.networkActive
    bootProgress := w.bootProgress, lastAction := w.lastAction }

/-- Embeds `V86Wrapper.onUpdate` (v86-wrapper.ts lines 495-505): pushes the
callback onto the subscriber list, then immediately and synchronously invokes
it once with `this.getState()`.  Returns the new instance state and the list
of synchronous invocations (callback identifier paired with the snapshot it
received). -/
def wOnUpdate (w : WrapperM) (cb : Nat) : WrapperM × List (Nat × V86WrapperState) :=
  let w1 := { w with subs := w.subs ++ [cb] }
  (w1, [(cb, wGetState w1)])

/-- Embeds the unsubscribe closure returned by `onUpdate`: filters the
callback out of the subscriber list. -/
def wUnsubscribe (w : WrapperM) (cb : Nat) : WrapperM :=
  { w with subs := w.subs.filter (fun c => !(c = cb)) }

/-- Embeds `V86Wrapper.notifyUpdate`: the invocations a state-change broadcast
performs, one per current subscriber in registration order. -/
def wNotify (w : WrapperM) : List (Nat × V86WrapperState) :=
  w.subs.map (fun c => (c, wGetState w))

/-! ### Keyboard injection queue (`sendText` / `processKeyboardBuffer`)

`sendText` (lines 332-342) appends the characters of its argument to
`keyboardBuffer` and, when no drain is running, starts
`processKeyboardBuffer` (lines 344-365).  That drain sets the
`processingKeyboard` flag, then injects one buffered character per iteration
of its while loop, suspending on a 50ms delay after each.  The embedding
keeps the keyboard-relevant fields and records every character handed to
`emulator.keyboard_send_text` in arrival order; injection itself is assumed
not to throw.  An execution is an arbitrary interleaving of `sendText` calls
(issued while the emulator handle is present and running, so the early-return
guard of `sendText` does not fire) and drain-loop resumptions. -/

/-- Keyboard-queue state: the FIFO buffer, the single-drain flag, and the
characters injected so far. -/
structure KB where
  buffer : Str
  processing : Bool
  injected : Str
deriving DecidableEq

/-- The initial keyboard state of a freshly constructed wrapper. -/
def kb0 : KB := { buffer := [], processing := false, injected := [] }

/-- Embeds one `sendText(text)` call together with the synchronous head of the
drain it may start: the characters are appended to the buffer; when no drain
is in progress and the buffer is non-empty, the drain starts (flag set) and
its first loop iteration injects one character before suspending on the
inter-key delay. -/
def kbSend (k : KB) (t : Str) : KB :=
  let k1 := { k with buffer := k.buffer ++ t }
  if k1.processing then k1
  else
    match k1.buffer with
    | [] => k1
    | c :: rest =>
      { buffer := rest, processing := true, injected := k1.injected ++ [c] }

/-- Embeds one resumption of the drain loop after its delay: with the flag
set, either the loop injects the next buffered character and suspends again,
or the buffer is empty, the loop exits and the `finally` clears the flag.
Without the flag the event does nothing (no drain is suspended). -/
def kbStep (k : KB) : KB :=
  if k.processing then
    match k.buffer with
    | [] => { k with processing := false }
    | c :: rest => { k with buffer := rest, injected := k.injected ++ [c] }
  else k

/-- An event of a keyboard execution: a `sendText` call or a drain
resumption. -/
inductive KBEvent
  | send (t : Str)
  | tick
deriving DecidableEq

/-- Runs a keyboard execution from a state through a list of events. -/
def kbRun (k : KB) : List KBEvent → KB
  | [] => k
  | KBEvent.send t :: evs => kbRun (kbSend k t) evs
  | KBEvent.tick :: evs => kbRun (kbStep k) evs

/-- The concatenation, in issue order, of the texts of the `sendText` calls of
an execution. -/
def sentOf : List KBEvent → Str
  | [] => []
  | KBEvent.send t :: evs => t ++ sentOf evs
  | KBEvent.tick :: evs => sentOf evs

/-! ## Language-Model Client factory (`web/src/lib/ai-models.ts`) -/

/-- The declared provider identifiers of `type AIProvider`. -/
inductive AIProvider
  | deepseek
  | openai
  | anthropic
  | gemini
deriving DecidableEq

/-- The string a provider identifier interpolates to in template literals. -/
def providerName : AIProvider → Str
  | AIProvider.deepseek => str "deepseek"
  | AIProvider.openai => str "openai"
  | AIProvider.anthropic => str "anthropic"
  | AIProvider.gemini => str "gemini"

/-- The options record taken by `createAIModel`.  The temperature is a numeric
literal in the source; it is embedded as a rational. -/
structure AIModelOptions where
  provider : AIProvider
  model : Str
  maxTokens : Option Nat
  temperature : Option ℚ
  systemPrompt : Option Str

/-- Embeds the JavaScript `a || b` default for an optional number: both an
absent value and the falsy `0` fall back to the default. -/
def jsOrNat (v : Option Nat) (d : Nat) : Nat :=
  match v with
  | none => d
  | some 0 => d
  | some n => n

/-- Embeds `a || b` for an optional rational (`0` is falsy). -/
def jsOrRat (v : Option ℚ) (d : ℚ) : ℚ :=
  match v with
  | none => d
  | some q => if q = 0 then d else q

/-- Embeds `a || b` for an optional string (the empty string is falsy). -/
def jsOrStr (v : Option Str) (d : Str) : Str :=
  match v with
  | none => d
  | some [] => d
  | some s => s

/-- The configuration the `DeepSeekClient` constructor stores: each option
defaulted through the JavaScript `||` operator. -/
structure DeepSeekClientCfg where
  model : Str
  maxTokens : Nat
  temperature : ℚ
  systemPrompt : Str
deriving DecidableEq

/-- Embeds the `DeepSeekClient` constructor. -/
def mkDeepSeekClient (model : Str) (maxTokens : Option Nat)
    (temperature : Option ℚ) (systemPrompt : Option Str) : DeepSeekClientCfg :=
  { model := jsOrStr (some model) (str "deepseek-coder")
    maxTokens := jsOrNat maxTokens 2048
    temperature := jsOrRat temperature (7 / 10)
    systemPrompt := jsOrStr systemPrompt [] }

/-- The constructed model client (only the deepseek variant exists in the
source; the other providers' cases are commented out). -/
inductive AIModel
  | deepseek (cfg : DeepSeekClientCfg)
deriving DecidableEq

/-- The error message thrown by the factory's default case. -/
def unsupportedMsg (p : AIProvider) : Str :=
  str "AI provider not supported: " ++ providerName p

/-- Embeds `createAIModel` (ai-models.ts lines 30-53): a switch on the
provider with a single supported case; every other provider reaches the
default case, which throws. -/
def createAIModel (o : AIModelOptions) : Except Str AIModel :=
  match o.provider with
  | AIProvider.deepseek =>
    Except.ok (AIModel.deepseek
      (mkDeepSeekClient (jsOrStr (some o.model) (str "deepseek-coder"))
        o.maxTokens o.temperature o.systemPrompt))
  | p => Except.error (unsupportedMsg p)

/-- The keys of an option object handed to `fetch`, with the abort signal
made explicit as an optional key. -/
structure FetchOpts where
  url : Str
  method : Str
  contentType : Str
  hasBody : Bool
  signal : Option Unit
deriving DecidableEq

/-- The option-object literal `DeepSeekClient.generateCompletion` passes to
`fetch` (deepseek-client lines 34-43): a POST to the completion endpoint with
one content-type header and a JSON body — and no `signal` key, so the
request is never connected to an `AbortController` (the streaming endpoint's
fetch at lines 69-78 likewise passes none). -/
def generateCompletionFetchOpts : FetchOpts :=
  { url := str "/api/ai/deepseek", method := str "POST"
    contentType := str "application/json", hasBody := true, signal := none }

/-! ## DeepSeek streaming client (`deepseek-client`, `streamCompletion`)

The stream arrives as chunks, each split on blank lines into frames; a frame
starting with `data: ` carries either the sentinel `[DONE]`, malformed JSON,
or a parsed object with optional `content` and `error` fields.  The embedding
represents the outcome of `JSON.parse` on each frame directly. -/

/-- One server-sent frame as seen by the per-line loop of
`streamCompletion`. -/
inductive SSEFrame
  | notData (raw : Str)
  | doneFrame
  | malformed (raw : Str)
  | parsed (content : Option Str) (error : Option Str)
deriving DecidableEq

/-- Embeds the `for (const line of lines)` loop over one chunk's frames:
returns the accumulated full text and the `onToken` payloads it emitted, in
order.  A frame that is not a data frame is skipped; the `[DONE]` sentinel
breaks out of the chunk; a malformed frame raises inside the per-frame `try`
and is skipped by its `catch`; a parsed frame appends its content, and its
`throw new Error(parsed.error)` for an error payload is raised inside the
same `try`, so the same `catch` swallows it and the loop continues. -/
def processLines (acc : Str) : List SSEFrame → Str × List Str
  | [] => (acc, [])
  | SSEFrame.notData _ :: rest => processLines acc rest
  | SSEFrame.doneFrame :: _ => (acc, [])
  | SSEFrame.malformed _ :: rest => processLines acc rest
  | SSEFrame.parsed c _ :: rest =>
    match c with
    | some t =>
      let r := processLines (acc ++ t) rest
      (r.1, t :: r.2)
    | none => processLines acc rest

/-- Embeds the `while (true)` reader loop over the stream's chunks. -/
def streamChunks (acc : Str) : List (List SSEFrame) → Str × List Str
  | [] => (acc, [])
  | chunk :: rest =>
    let r1 := processLines acc chunk
    let r2 := streamChunks r1.1 rest
    (r2.1, r1.2 ++ r2.2)

/-- The observable outcome of one `streamCompletion` call: the `onToken`
payloads in order, the `onComplete` argument when it was invoked, and the
error propagated to the caller when one was thrown. -/
structure StreamResult where
  tokens : List Str
  completed : Option Str
  threw : Option Str
deriving DecidableEq

/-- Embeds `DeepSeekClient.streamCompletion` after the request is sent: a
non-success response throws an upstream error (rethrown by the outer catch);
otherwise the chunks are processed and `onComplete` receives the accumulated
text. -/
def streamCompletion (responseOk : Bool) (errPayload : Str)
    (chunks : List (List SSEFrame)) : StreamResult :=
  if responseOk then
    let r := streamChunks [] chunks
    { tokens := r.2, completed := some r.1, threw := none }
  else
    { tokens := [], completed := none
      threw := some (str "API error: " ++ errPayload) }

/-! ## Agent Loop (`web/src/lib/ai-agent.ts`)

The agent's asynchronous methods are embedded as pure transformers of the
instance fields.  `await`ed external calls — the facade's `takeScreenshot`,
the model client's `generateCompletion`, the facade's `sendText`, and the
post-command screenshots — are supplied by a `TurnEnv` of oracles whose
results are `Except` values: an `Except.error` result embeds the awaited
promise rejecting (a thrown exception) at that suspension point.  Each
embedded method also records two observations the claims are about: the
snapshots handed to `notifyUpdate` subscribers, and the texts handed to
`emulator.sendText` (the device actions of a turn).  Entry timestamps are
not modelled (nothing in the code branches on them). -/

/-- Conversation roles. -/
inductive Role
  | system
  | user
  | assistant
deriving DecidableEq

/-- The optional `type` tag of an `AIAgentMessage`. -/
inductive EntryType
  | command
  | response
  | error
  | system
deriving DecidableEq

/-- One `AIAgentMessage` history entry (role, content, optional type, and the
optional metadata fields). -/
structure Entry where
  role : Role
  content : Str
  etype : Option EntryType
  metaCommand : Option Str
  metaScreenshot : Option Str
  metaError : Option Str
deriving DecidableEq

/-- The `status` field of `AIAgentState`. -/
inductive AgentStatus
  | idle
  | starting
  | running
  | stopped
deriving DecidableEq

/-- The published `AIAgentState` snapshot assembled by `AIAgent.getState`. -/
structure Snap where
  isProcessing : Bool
  lastOutput : Str
  lastScreenshot : Option Str
  history : List Entry
  status : AgentStatus
deriving DecidableEq

/-- The mutable fields of an `AIAgent` instance, together with the wired
emulator facade's screenshot cache (`hasEmu` embeds `this.emulator !== null`;
`emuShot` embeds the facade's `lastScreenshot`, read by
`this.emulator?.getScreenshot()`). -/
structure AgentCore where
  isProcessing : Bool
  status : AgentStatus
  history : List Entry
  lastOutput : Str
  commandQueue : List Str
  isExecutingCommand : Bool
  task : Str
  hasEmu : Bool
  emuShot : Option Str
deriving DecidableEq

/-- An agent state paired with the run's observations: the snapshots
published to `onUpdate` subscribers so far, and the texts dispatched to
`emulator.sendText` so far. -/
structure AgentM where
  core : AgentCore
  pubs : List Snap
  executed : List Str
deriving DecidableEq

/-- A role-and-content message of the model request context. -/
structure CtxMsg where
  role : Role
  content : Str
deriving DecidableEq

/-- A thrown JavaScript error value: its `name` and its `message`. -/
structure JsError where
  name : Str
  msg : Str
deriving DecidableEq

/-- Embeds JavaScript string conversion of an `Error` value
(`Error.prototype.toString`). -/
def errStr (e : JsError) : Str :=
  if e.msg = [] then e.name else e.name ++ str ": " ++ e.msg

/-- Embeds `x || null` / `x || undefined` on an optional string: an absent or
empty value collapses to `none`. -/
def jsOrNone (v : Option Str) : Option Str :=
  match v with
  | none => none
  | some [] => none
  | some s => some s

/-- The oracles for one turn's awaited external calls.  `shot0` is the
outcome of the turn's initial `takeScreenshot`; `aiCall` is the outcome of
`generateCompletion` on the assembled context — the catch of `getAIResponse`
singles out rejections named `AbortError`, but no fetch in the source ever
receives `abortController.signal` (see `generateCompletionFetchOpts`), so
`stop()` cannot produce such a rejection; `sendRes i` and `shotAfter i` are
the outcomes of the `sendText` and `takeScreenshot` awaits for the i-th
command the turn executes. -/
structure TurnEnv where
  shot0 : Except JsError (Option Str)
  aiCall : List CtxMsg → Except JsError Str
  sendRes : Nat → Except JsError Unit
  shotAfter : Nat → Except JsError (Option Str)

/-- Embeds `AIAgent.getState`. -/
def getStateSnap (c : AgentCore) : Snap :=
  { isProcessing := c.isProcessing
    lastOutput := c.lastOutput
    lastScreenshot := jsOrNone (if c.hasEmu then c.emuShot else none)
    history := c.history
    status := c.status }

/-- Embeds `AIAgent.notifyUpdate`: publishes the current snapshot. -/
def notifyUpdate (m : AgentM) : AgentM :=
  { m with pubs := m.pubs ++ [getStateSnap m.core] }

/-- Embeds `AIAgent.addToHistory`: pushes the entry, then publishes. -/
def addToHistory (m : AgentM) (e : Entry) : AgentM :=
  notifyUpdate { m with core := { m.core with history := m.core.history ++ [e] } }

/-- Sets the `isProcessing` flag. -/
def setProcessing (m : AgentM) (b : Bool) : AgentM :=
  { m with core := { m.core with isProcessing := b } }

/-- Sets the `status` field. -/
def setStatus (m : AgentM) (st : AgentStatus) : AgentM :=
  { m with core := { m.core with status := st } }

/-- Sets the `lastOutput` field. -/
def setLastOutput (m : AgentM) (s : Str) : AgentM :=
  { m with core := { m.core with lastOutput := s } }

/-- Sets the facade's cached screenshot (a successful `takeScreenshot`). -/
def setShot (m : AgentM) (s : Str) : AgentM :=
  { m with core := { m.core with emuShot := some s } }

/-- Sets the `isExecutingCommand` flag. -/
def setExec (m : AgentM) (b : Bool) : AgentM :=
  { m with core := { m.core with isExecutingCommand := b } }

/-- Replaces the command queue (a `shift()` leaves the tail). -/
def setQueue (m : AgentM) (q : List Str) : AgentM :=
  { m with core := { m.core with commandQueue := q } }

/-- Embeds `this.commandQueue.push(...commands)`. -/
def pushQueue (m : AgentM) (cmds : List Str) : AgentM :=
  { m with core := { m.core with commandQueue := m.core.commandQueue ++ cmds } }

/-- Records one text dispatched to `emulator.sendText`. -/
def recordExec (m : AgentM) (t : Str) : AgentM :=
  { m with executed := m.executed ++ [t] }

/-- A user entry as appended by `sendUserMessage` (no type, no metadata). -/
def userEntry (msg : Str) : Entry :=
  { role := Role.user, content := msg, etype := none
    metaCommand := none, metaScreenshot := none, metaError := none }

/-- The assistant response entry appended by `processNextStep` step 4, with
the turn's screenshot in the metadata (`screenshot || undefined`). -/
def respEntry (resp : Str) (sh : Option Str) : Entry :=
  { role := Role.assistant, content := resp, etype := some EntryType.response
    metaCommand := none, metaScreenshot := jsOrNone sh, metaError := none }

/-- The error entry appended by the per-turn catch of `processNextStep`. -/
def stepErrorEntry (e : JsError) : Entry :=
  { role := Role.system, content := str "Error processing step: " ++ errStr e
    etype := some EntryType.error, metaCommand := none
    metaScreenshot := none, metaError := some (errStr e) }

/-- The error entry appended by the catch of `processCommandQueue`. -/
def cmdErrorEntry (e : JsError) : Entry :=
  { role := Role.system, content := str "Error executing command: " ++ errStr e
    etype := some EntryType.error, metaCommand := none
    metaScreenshot := none, metaError := some (errStr e) }

/-- The command echo entry appended before each command executes. -/
def commandEntry (cmd : Str) : Entry :=
  { role := Role.assistant
    content := str "Executing command:\n```\n" ++ cmd ++ str "\n```"
    etype := some EntryType.command, metaCommand := some cmd
    metaScreenshot := none, metaError := none }

/-- The error entry appended by the catch of `start`. -/
def startErrorEntry (e : JsError) : Entry :=
  { role := Role.system, content := str "Error starting AI agent: " ++ errStr e
    etype := some EntryType.error, metaCommand := none
    metaScreenshot := none, metaError := some (errStr e) }

/-- The canned greeting `start` appends, interpolating the task. -/
def greeting (task : Str) : Str :=
  str "Hello! I\x27m your AI assistant for " ++ task ++
    str ". I\x27m connected to your virtual machine and ready to help. What would you like to do?"

/-- The greeting entry appended by `start`. -/
def greetEntry (g : Str) (sh : Option Str) : Entry :=
  { role := Role.assistant, content := g, etype := some EntryType.response
    metaCommand := none, metaScreenshot := jsOrNone sh, metaError := none }

/-- The system entry appended by `stop`. -/
def stoppedEntry : Entry :=
  { role := Role.system, content := str "AI agent stopped"
    etype := some EntryType.system, metaCommand := none
    metaScreenshot := none, metaError := none }

/-- The literal message `getAIResponse` resolves with when the in-flight
request was aborted. -/
def cancelMsg : Str := str "Request was cancelled."

/-- The literal message `getAIResponse` resolves with on any other upstream
failure. -/
def errRespMsg : Str :=
  str "I encountered an error processing your request. Please try again."

/-- The fixed screen description `analyzeScreenshot` returns. -/
def screenDescription : Str :=
  str "The screen shows the virtual machine\x27s display with a command interface."

/-- The synthetic system note describing the current screen. -/
def screenNote : Str :=
  str "[Current screen state: " ++ screenDescription ++ str "]"

/-- Embeds `await this.emulator?.takeScreenshot()`: with no emulator the
optional chain yields `undefined`; otherwise the facade either rejects, or
returns `null` leaving its cache alone, or caches the new screenshot,
notifies its subscribers (the agent re-publishes through its facade
subscription) and returns it. -/
def takeShot (env : Except JsError (Option Str)) (m : AgentM) :
    Except JsError (AgentM × Option Str) :=
  if m.core.hasEmu then
    match env with
    | Except.error e => Except.error e
    | Except.ok none => Except.ok (m, none)
    | Except.ok (some s) => Except.ok (notifyUpdate (setShot m s), some s)
  else
    Except.ok (m, none)

/-- Embeds `AIAgent.getAIResponse` (ai-agent.ts lines 503-528): builds the
role-and-content context from the history, appends the synthetic screen note
when a cached screenshot exists, then awaits the model call; its catch turns
an `AbortError` rejection into the literal cancellation message and any other
rejection into the literal apology, so the method always resolves with a
string. -/
def getAIResponseText (env : TurnEnv) (m : AgentM) : Str :=
  let ctx := m.core.history.map (fun e => CtxMsg.mk e.role e.content)
  let ctx2 :=
    match jsOrNone (if m.core.hasEmu then m.core.emuShot else none) with
    | some _ => ctx ++ [CtxMsg.mk Role.system screenNote]
    | none => ctx
  match env.aiCall ctx2 with
  | Except.ok t => t
  | Except.error e =>
    if e.name = str "AbortError" then cancelMsg else errRespMsg

/-- Embeds the while loop of `processCommandQueue` over the commands it will
shift (the queue only shrinks during the loop): each iteration shifts the
head, appends the command echo entry, dispatches `sendText(command + "\n")`,
then takes a screenshot; a rejection of either await is caught by the
method's catch, which appends an error entry and ends the loop. -/
def runQueueLoop (env : TurnEnv) : List Str → Nat → AgentM → AgentM
  | [], _, m => m
  | cmd :: rest, i, m =>
    let m1 := addToHistory (setQueue m rest) (commandEntry cmd)
    let m2 := recordExec m1 (cmd ++ ['\n'])
    match env.sendRes i with
    | Except.error e => addToHistory m2 (cmdErrorEntry e)
    | Except.ok _ =>
      match env.shotAfter i with
      | Except.error e => addToHistory m2 (cmdErrorEntry e)
      | Except.ok none => runQueueLoop env rest (i + 1) m2
      | Except.ok (some s) =>
        runQueueLoop env rest (i + 1)
          (notifyUpdate (notifyUpdate (setShot m2 s)))

/-- Embeds `AIAgent.processCommandQueue` (ai-agent.ts lines 458-501): the
re-entrancy, emulator and emptiness guards, the `isExecutingCommand` flag
set for the loop's duration, and the `finally` that clears it. -/
def processCommandQueue (env : TurnEnv) (m : AgentM) : AgentM :=
  if m.core.isExecutingCommand || !m.core.hasEmu || m.core.commandQueue.isEmpty
  then m
  else setExec (runQueueLoop env m.core.commandQueue 0 (setExec m true)) false

/-- Embeds the continuation of `processNextStep` from the point its
`await this.getAIResponse()` resolves: the resolved response text and the
captured screenshot variable are values, while `this` is whatever the agent
state is at resumption time — so a `stop()` that ran while the request was
in flight is applied to `m` before this continuation.  Appends the assistant
entry, sets `lastOutput`, extracts the commands and (when any were found)
pushes and executes them. -/
def turnResume (env : TurnEnv) (resp : Str) (sh : Option Str) (m : AgentM) : AgentM :=
  let m3 := addToHistory m (respEntry resp sh)
  let m4 := setLastOutput m3 resp
  let cmds := extractCommands resp
  if cmds.isEmpty then m4 else processCommandQueue env (pushQueue m4 cmds)

/-- Embeds the `try` body of `processNextStep` together with its `catch`: the
initial screenshot, the model response, then the post-await continuation; a
rejection of the screenshot await is caught and recorded as an error
entry. -/
def turnTry (env : TurnEnv) (m : AgentM) : AgentM :=
  match takeShot env.shot0 m with
  | Except.error e => addToHistory m (stepErrorEntry e)
  | Except.ok (m2, sh) => turnResume env (getAIResponseText env m2) sh m2

/-- The `finally` of `processNextStep`: clears `isProcessing` and publishes
the final state. -/
def finalize (m : AgentM) : AgentM :=
  notifyUpdate (setProcessing m false)

/-- Embeds `AIAgent.processNextStep` (ai-agent.ts lines 399-442): sets the
`isProcessing` flag and publishes, runs the guarded turn body, and always
runs the finalizer. -/
def processNextStep (env : TurnEnv) (m : AgentM) : AgentM :=
  finalize (turnTry env (notifyUpdate (setProcessing m true)))

/-- Embeds `AIAgent.sendUserMessage` (ai-agent.ts lines 387-397): the
gate returns unchanged unless the loop is idle between turns and running;
otherwise it appends the user entry and invokes exactly one turn. -/
def sendUserMessage (env : TurnEnv) (m : AgentM) (msg : Str) : AgentM :=
  if m.core.isProcessing = true ∨ m.core.status ≠ AgentStatus.running then m
  else processNextStep env (addToHistory m (userEntry msg))

/-- Embeds `AIAgent.start` (ai-agent.ts lines 345-385): a no-op unless the
status is `idle`; otherwise transitions through `starting`, takes the initial
screenshot, appends the greeting and moves to `running`, falling back to
`idle` with an error entry when a step rejects; the `finally` clears
`isProcessing` and publishes. -/
def start (env : TurnEnv) (m : AgentM) : AgentM :=
  if m.core.status ≠ AgentStatus.idle then m
  else
    let m1 := notifyUpdate (setProcessing (setStatus m AgentStatus.starting) true)
    match takeShot env.shot0 m1 with
    | Except.error e =>
      finalize (addToHistory (setStatus m1 AgentStatus.idle) (startErrorEntry e))
    | Except.ok (m2, sh) =>
      let g := greeting m2.core.task
      finalize (setStatus (setLastOutput (addToHistory m2 (greetEntry g sh)) g)
        AgentStatus.running)

/-- Embeds `AIAgent.stop` (ai-agent.ts lines 536-555): calls `abort()` on the
stored controller — which is inert, because the controller's signal is never
passed to any fetch (see `generateCompletionFetchOpts`) — then sets the
status to `stopped`, clears the processing flags and the queued commands,
and appends the stop notice. -/
def stopAgent (m : AgentM) : AgentM :=
  let m1 := setExec (setQueue (setProcessing (setStatus m AgentStatus.stopped) false) []) false
  notifyUpdate (addToHistory m1 stoppedEntry)

/-- Counts the user-role entries of a history. -/
def userCount (h : List Entry) : Nat :=
  (h.filter (fun e => decide (e.role = Role.user))).length

/-- The options record taken by the `AIAgent` constructor. -/
structure AIAgentOptions where
  provider : AIProvider
  model : Str
  task : Str
  systemPrompt : Option Str
  maxTokens : Option Nat
  temperature : Option ℚ

/-- The default system prompt of `AIAgent.getDefaultSystemPrompt`,
interpolating the task. -/
def defaultSystemPrompt (task : Str) : Str :=
  str "You are an AI assistant helping with a " ++ task ++
    str " task in a virtual machine environment.\n    You have access to a virtual machine running on the user\x27s computer.\n    You can see the screen output and execute commands.\n    \n    Guidelines:\n    1. Be concise and focused on the task at hand\n    2. When executing commands, use code blocks with ``` for clear formatting\n    3. Monitor command output and provide feedback\n    4. If something goes wrong, explain the issue and suggest solutions\n    5. Break down complex tasks into manageable steps\n    \n    Current task: " ++ task

/-- The system entry the constructor appends. -/
def sysEntry (prompt : Str) : Entry :=
  { role := Role.system, content := prompt, etype := some EntryType.system
    metaCommand := none, metaScreenshot := none, metaError := none }

/-- Embeds the `AIAgent` constructor (ai-agent.ts lines 289-313): stores the
options, creates the model client through `createAIModel` — so a factory
throw fails construction — and appends the system-prompt entry.  Returns the
created client and the initial agent state. -/
def mkAIAgent (o : AIAgentOptions) : Except Str (AIModel × AgentM) :=
  let prompt := jsOrStr o.systemPrompt (defaultSystemPrompt o.task)
  match createAIModel
      { provider := o.provider, model := o.model, maxTokens := o.maxTokens
        temperature := o.temperature, systemPrompt := some prompt } with
  | Except.error e => Except.error e
  | Except.ok model =>
    Except.ok (model, addToHistory
      { core :=
          { isProcessing := false, status := AgentStatus.idle, history := []
            lastOutput := [], commandQueue := [], isExecutingCommand := false
            task := o.task, hasEmu := false, emuShot := none }
        pubs := [], executed := [] }
      (sysEntry prompt))

/-! ## Concrete fixtures used by witness theorems -/

/-- A turn environment whose awaits all resolve. -/
def envW : TurnEnv :=
  { shot0 := Except.ok none, aiCall := fun _ => Except.ok (str "done")
    sendRes := fun _ => Except.ok (), shotAfter := fun _ => Except.ok none }

/-- A quiescent running agent core. -/
def coreW : AgentCore :=
  { isProcessing := false, status := AgentStatus.running, history := []
    lastOutput := [], commandQueue := [], isExecutingCommand := false
    task := str "demo", hasEmu := false, emuShot := none }

/-- A quiescent running agent. -/
def mW : AgentM := { core := coreW, pubs := [], executed := [] }

/-- An agent already mid-turn. -/
def mBusy : AgentM := { mW with core := { coreW with isProcessing := true } }

/-- A running agent wired to an emulator. -/
def mEmu : AgentM := { mW with core := { coreW with hasEmu := true } }

/-- A thrown error fixture. -/
def eW : JsError := { name := str "TypeError", msg := str "boom" }

/-- A turn environment whose initial screenshot await rejects. -/
def envThrow : TurnEnv := { envW with shot0 := Except.error eW }

/-- The agent state after `stop()` runs while a turn of `mEmu` is suspended
on its in-flight model request: the turn had set the processing flag and
published, the initial screenshot await had resolved with `null`, and then
`stop()` mutated the shared state. -/
def mStopMid : AgentM := stopAgent (notifyUpdate (setProcessing mEmu true))

/-- A keyboard execution interleaving sends with drain resumptions. -/
def evsW : List KBEvent :=
  [KBEvent.send (str "ab"), KBEvent.tick, KBEvent.send (str "c"),
   KBEvent.tick, KBEvent.tick, KBEvent.tick]

/-- A keyboard state with a drain in progress. -/
def kProc : KB := { buffer := str "x", processing := true, injected := str "q" }

/-- A wrapper fixture with two subscribers. -/
def wW : WrapperM :=
  { isRunning := true, osType := str "linux", lastScreenshot := none
    status := str "ready", memoryUsage := 0, networkActive := false
    bootProgress := 100, lastAction := str "System ready", subs := [1, 2] }

/-- Factory options selecting a non-deepseek provider. -/
def moW : AIModelOptions :=
  { provider := AIProvider.openai, model := str "gpt-4", maxTokens := none
    temperature := none, systemPrompt := none }

/-- Agent constructor options selecting a non-deepseek provider. -/
def aoW : AIAgentOptions :=
  { provider := AIProvider.anthropic, model := str "claude", task := str "demo"
    systemPrompt := none, maxTokens := none, temperature := none }

/-! ## Helper lemmas -/

/-- Dropping trailing whitespace never lengthens a string. -/
theorem dropTrailingWs_len (s : Str) : (dropTrailingWs s).length ≤ s.length := by
  induction s with
  | nil => simp [dropTrailingWs]
  | cons c cs ih =>
    simp only [dropTrailingWs]
    split
    · simp
    · simpa using ih

/-- Dropping a satisfied front never lengthens a list. -/
theorem dropWhile_len (p : Char → Bool) (s : Str) :
    (s.dropWhile p).length ≤ s.length := by
  induction s with
  | nil => simp
  | cons c cs ih =>
    by_cases h : p c
    · simp only [List.dropWhile_cons, h, if_true]
      exact Nat.le_trans ih (Nat.le_succ _)
    · simp [List.dropWhile_cons, h]

/-- Removing trailing whitespace is idempotent. -/
theorem dropTrailingWs_idem (s : Str) :
    dropTrailingWs (dropTrailingWs s) = dropTrailingWs s := by
  induction s with
  | nil => simp [dropTrailingWs]
  | cons c cs ih =>
    simp only [dropTrailingWs]
    split
    · simp [dropTrailingWs]
    · rename_i h
      simp only [dropTrailingWs, ih]
      rw [if_neg h]

/-- The function dropTrailingWs keeps the head character when anything is kept. -/
theorem dropTrailingWs_shape (c : Char) (cs : Str) :
    dropTrailingWs (c :: cs) = [] ∨ ∃ r, dropTrailingWs (c :: cs) = c :: r := by
  simp only [dropTrailingWs]
  split
  · exact Or.inl rfl
  · exact Or.inr ⟨_, rfl⟩

/-- Dropping a satisfied front twice equals dropping it once. -/
theorem dropWhile_dropWhile (p : Char → Bool) (l : Str) :
    List.dropWhile p (List.dropWhile p l) = List.dropWhile p l := by
  induction l with
  | nil => simp
  | cons c cs ih =>
    by_cases h : p c
    · simpa [List.dropWhile_cons, h] using ih
    · simp [List.dropWhile_cons, h]

/-- A string that survives a trim unchanged has no leading whitespace. -/
theorem trim_head_not_ws (A : Str) (h : trimStr A = A) :
    ∀ a t, A = a :: t → isWs a = false := by
  intro a t hA
  by_contra hw
  simp only [Bool.not_eq_false] at hw
  have hlen : (trimStr A).length < A.length := by
    rw [hA]
    simp only [trimStr, List.dropWhile_cons, hw, if_true]
    have h1 := dropTrailingWs_len (List.dropWhile isWs t)
    have h2 := dropWhile_len isWs t
    simp only [List.length_cons]
    omega
  rw [h] at hlen
  omega

/-- Trimming is idempotent. -/
theorem trimStr_idem (s : Str) : trimStr (trimStr s) = trimStr s := by
  have hfront : List.dropWhile isWs (trimStr s) = trimStr s := by
    simp only [trimStr]
    rcases hdw : List.dropWhile isWs s with _ | ⟨a, t⟩
    · simp [dropTrailingWs]
    · have ha : isWs a = false := by
        have := dropWhile_dropWhile isWs s
        rw [hdw] at this
        by_cases h : isWs a
        · rw [List.dropWhile_cons, if_pos h] at this
          have hl := dropWhile_len isWs t
          have : t.length + 1 ≤ t.length := by
            calc t.length + 1 = (a :: t).length := by simp
            _ = (List.dropWhile isWs t).length := by rw [← this]
            _ ≤ t.length := hl
          omega
        · simpa using h
      rcases dropTrailingWs_shape a t with h0 | ⟨r, hr⟩
      · simp [h0]
      · rw [hr, List.dropWhile_cons, ha]
        simp
  simp only [trimStr] at hfront ⊢
  rw [hfront, dropTrailingWs_idem]

/-- A pattern without backticks that fails on a string also fails on that
string extended past a backtick. -/
theorem hasPfx_append_tick (p : Str) :
    ∀ (A r : Str), noTick p = true → hasPfx p A = false →
      hasPfx p (A ++ '`' :: r) = false := by
  induction p with
  | nil => intro A r _ h; simp [hasPfx] at h
  | cons x ps ih =>
    intro A r hp h
    simp only [noTick, Bool.and_eq_true, Bool.not_eq_true'] at hp
    cases A with
    | nil =>
      have hx : ¬(x = '`') := of_decide_eq_false hp.1
      simp [hasPfx, hx]
    | cons a as =>
      simp only [hasPfx, Bool.and_eq_false_iff] at h
      simp only [List.cons_append, hasPfx]
      rcases h with h | h
      · simp [h]
      · simp [ih as r hp.2 h]

/-- A fence-free string contains no fence to split at. -/
theorem splitFence_none (s : Str) (h : noTick s = true) : splitFence s = none := by
  induction s with
  | nil => rfl
  | cons c cs ih =>
    simp only [noTick, Bool.and_eq_true, Bool.not_eq_true'] at h
    have hc : ¬('`' = c) := fun he => (of_decide_eq_false h.1) he.symm
    have hfx : hasPfx tick3 (c :: cs) = false := by
      simp [tick3, hasPfx, hc]
    simp [splitFence, hfx, ih h.2]

/-- Splitting at the fence after a fence-free lead-in. -/
theorem splitFence_found (pre : Str) :
    ∀ rest : Str, noTick pre = true →
      splitFence (pre ++ '`' :: '`' :: '`' :: rest) = some (pre, rest) := by
  induction pre with
  | nil =>
    intro rest _
    simp [splitFence, hasPfx, tick3]
  | cons c cs ih =>
    intro rest hp
    simp only [noTick, Bool.and_eq_true, Bool.not_eq_true'] at hp
    have hc : ¬('`' = c) := fun he => (of_decide_eq_false hp.1) he.symm
    have hfx : hasPfx tick3 (c :: (cs ++ '`' :: '`' :: '`' :: rest)) = false := by
      simp [tick3, hasPfx, hc]
    simp [splitFence, hfx, ih rest hp.2]

/-- A fence-free string has no match. -/
theorem execFence_none (s : Str) (h : noTick s = true) : execFence s = none := by
  simp [execFence, splitFence_none s h]

/-- One regex.exec step on a well-formed fenced block: a fence-free lead-in,
the opening fence, non-empty trimmed fence-free content that carries no
bash/shell tag, and the closing fence. -/
theorem execFence_block (pre A rest : Str)
    (hpre : noTick pre = true) (hA : noTick A = true)
    (hAtrim : trimStr A = A) (hAne : A ≠ [])
    (hAb : hasPfx (str "bash") A = false)
    (hAs : hasPfx (str "shell") A = false) :
    execFence (pre ++ tick3 ++ A ++ tick3 ++ rest) = some (A, rest) := by
  have harg : pre ++ tick3 ++ A ++ tick3 ++ rest
      = pre ++ '`' :: '`' :: '`' :: (A ++ '`' :: '`' :: '`' :: rest) := by
    simp [tick3]
  have hopen := splitFence_found pre (A ++ '`' :: '`' :: '`' :: rest) hpre
  have hbash : hasPfx (str "bash") (A ++ '`' :: '`' :: '`' :: rest) = false :=
    hasPfx_append_tick (str "bash") A ('`' :: '`' :: rest) (by decide) hAb
  have hshell : hasPfx (str "shell") (A ++ '`' :: '`' :: '`' :: rest) = false :=
    hasPfx_append_tick (str "shell") A ('`' :: '`' :: rest) (by decide) hAs
  have hstrip : stripTag (A ++ '`' :: '`' :: '`' :: rest)
      = A ++ '`' :: '`' :: '`' :: rest := by
    simp [stripTag, hbash, hshell]
  obtain ⟨a, t, ha⟩ : ∃ a t, A = a :: t := by
    cases A with
    | nil => exact absurd rfl hAne
    | cons a t => exact ⟨a, t, rfl⟩
  have hws : isWs a = false := trim_head_not_ws A hAtrim a t ha
  have hdrop : List.dropWhile isWs (A ++ '`' :: '`' :: '`' :: rest)
      = A ++ '`' :: '`' :: '`' :: rest := by
    rw [ha, List.cons_append, List.dropWhile_cons, hws]
    simp
  have hclose := splitFence_found A rest hA
  rw [harg]
  simp [execFence, hopen, hstrip, hdrop, hclose]

/-- A string with no match yields no captures for any fuel. -/
theorem extractFenced_none (fuel : Nat) (s : Str) (h : execFence s = none) :
    extractFenced fuel s = [] := by
  cases fuel with
  | zero => rfl
  | succ n => simp [extractFenced, h]

/-- Unfolds one iteration of the extraction loop. -/
theorem extractFenced_step (fuel : Nat) (s : Str) :
    extractFenced (Nat.succ fuel) s
      = match execFence s with
        | none => []
        | some (cap, rest) => cap :: extractFenced fuel rest := rfl

/-- Claim C4: command extraction is order-preserving and ignores non-matching
text: a reply consisting of fence-free text around two fenced command blocks
`A` then `B` (each non-empty, trimmed, fence-free and not starting with a
bash/shell language tag) extracts exactly `[A, B]` in document order, and the
surrounding text produces no action and no error. -/
theorem extractCommands_order_preserving (pre mid post A B : Str)
    (hpre : noTick pre = true) (hmid : noTick mid = true)
    (hpost : noTick post = true)
    (hA : noTick A = true) (hAtrim : trimStr A = A) (hAne : A ≠ [])
    (hAb : hasPfx (str "bash") A = false)
    (hAs : hasPfx (str "shell") A = false)
    (hB : noTick B = true) (hBtrim : trimStr B = B) (hBne : B ≠ [])
    (hBb : hasPfx (str "bash") B = false)
    (hBs : hasPfx (str "shell") B = false) :
    extractCommands (pre ++ tick3 ++ A ++ tick3 ++ mid ++ tick3 ++ B ++ tick3 ++ post)
      = [A, B] := by
  have h1 : execFence (pre ++ tick3 ++ A ++ tick3 ++ mid ++ tick3 ++ B ++ tick3 ++ post)
      = some (A, mid ++ tick3 ++ B ++ tick3 ++ post) := by
    have h := execFence_block pre A (mid ++ tick3 ++ B ++ tick3 ++ post)
      hpre hA hAtrim hAne hAb hAs
    simp only [List.append_assoc] at h ⊢
    exact h
  have h2 := execFence_block mid B post hmid hB hBtrim hBne hBb hBs
  have h3 : execFence post = none := execFence_none post hpost
  have hloop : ∀ k : Nat,
      extractFenced (k + 2)
        (pre ++ tick3 ++ A ++ tick3 ++ mid ++ tick3 ++ B ++ tick3 ++ post)
        = [A, B] := by
    intro k
    show extractFenced (Nat.succ (Nat.succ k)) _ = _
    simp only [extractFenced_step, h1, h2, extractFenced_none k post h3]
  have hlen : ∃ k : Nat,
      (pre ++ tick3 ++ A ++ tick3 ++ mid ++ tick3 ++ B ++ tick3 ++ post).length
        = k + 2 := by
    refine ⟨(pre ++ tick3 ++ A ++ tick3 ++ mid ++ tick3 ++ B ++ tick3 ++ post).length - 2, ?_⟩
    simp only [List.length_append, tick3, List.length_cons, List.length_nil]
    omega
  obtain ⟨k, hk⟩ := hlen
  have hAemp : List.isEmpty A = false := by
    cases A with
    | nil => exact absurd rfl hAne
    | cons a t => rfl
  have hBemp : List.isEmpty B = false := by
    cases B with
    | nil => exact absurd rfl hBne
    | cons a t => rfl
  rw [extractCommands, hk, hloop k]
  simp [hAtrim, hBtrim, hAemp, hBemp]

/-- Claim C4 witness at a concrete reply. -/
theorem extractCommands_order_preserving_witness :
    extractCommands (str "Run: " ++ tick3 ++ str "ls -la" ++ tick3 ++
        str "\nthen\n" ++ tick3 ++ str "pwd" ++ tick3 ++ str " done")
      = [str "ls -la", str "pwd"] :=
  extractCommands_order_preserving (str "Run: ") (str "\nthen\n") (str " done")
    (str "ls -la") (str "pwd")
    (by decide) (by decide) (by decide)
    (by decide) (by decide) (by decide) (by decide) (by decide)
    (by decide) (by decide) (by decide) (by decide) (by decide)

/-- Claim C10: every extracted command is non-empty and already trimmed:
captures that trim to the empty string are dropped and produce no action. -/
theorem extractCommands_trimmed_nonempty (s c : Str)
    (h : c ∈ extractCommands s) : c ≠ [] ∧ trimStr c = c := by
  simp only [extractCommands, List.mem_filter, List.mem_map] at h
  obtain ⟨⟨x, _, hx⟩, hemp⟩ := h
  constructor
  · intro hc
    rw [hc] at hemp
    simp at hemp
  · rw [← hx, trimStr_idem]

/-- Claim C10 witness: a block of pure whitespace is dropped while a real
command survives, and the surviving command is non-empty and trimmed. -/
theorem extractCommands_trimmed_nonempty_witness :
    str "ls" ≠ [] ∧ trimStr (str "ls") = str "ls" :=
  extractCommands_trimmed_nonempty (str "a```   ``` b ``` ls\n``` c")
    (str "ls") (by decide)

/-- Claim C7: the boot-order byte is exactly 0x123 for `windows`, 0x321 for
`freedos`, and 0x132 for `linux`; every OS name whose lowercasing is none of
the three recognized names falls back to the full linux mapping (hence also
boot order 0x132). -/
theorem getOSOptions_boot_order :
    ((getOSOptions (str "windows")).boot_order = some 0x123
      ∧ (getOSOptions (str "freedos")).boot_order = some 0x321
      ∧ (getOSOptions (str "linux")).boot_order = some 0x132)
    ∧ ∀ s : Str,
        s.map Char.toLower ∉ [str "linux", str "windows", str "freedos"] →
        (getOSOptions s).boot_order = some 0x132
          ∧ getOSOptions s = getOSOptions (str "linux") := by
  refine ⟨by decide, ?_⟩
  intro s h
  simp only [List.mem_cons, List.not_mem_nil, or_false, not_or] at h
  rw [getOSOptions, if_neg h.1, if_neg h.2.1, if_neg h.2.2]
  exact ⟨rfl, by decide⟩

/-- Claim C7 witness at the unrecognized OS name plan9. -/
theorem getOSOptions_boot_order_witness :
    (getOSOptions (str "windows")).boot_order = some 0x123
    ∧ (getOSOptions (str "plan9")).boot_order = some 0x132
    ∧ getOSOptions (str "plan9") = getOSOptions (str "linux") :=
  ⟨getOSOptions_boot_order.1.1,
   (getOSOptions_boot_order.2 (str "plan9") (by decide)).1,
   (getOSOptions_boot_order.2 (str "plan9") (by decide)).2⟩

/-- Claim C8: registering a fresh callback through the facade's `onUpdate`
invokes it synchronously exactly once with a snapshot of the state at
subscription time, appends it to the subscriber list, and the returned
unsubscribe closure removes exactly that callback, after which broadcasts
never reach it. -/
theorem onUpdate_immediate_snapshot (w : WrapperM) (cb : Nat)
    (hfresh : cb ∉ w.subs) :
    (wOnUpdate w cb).2 = [(cb, wGetState w)]
    ∧ (wOnUpdate w cb).1.subs = w.subs ++ [cb]
    ∧ (wUnsubscribe (wOnUpdate w cb).1 cb).subs = w.subs
    ∧ ∀ p ∈ wNotify (wUnsubscribe (wOnUpdate w cb).1 cb), p.1 ≠ cb := by
  have hterm : (wUnsubscribe (wOnUpdate w cb).1 cb).subs = w.subs := by
    show (w.subs ++ [cb]).filter (fun c => !(c = cb)) = w.subs
    rw [List.filter_append]
    have h1 : [cb].filter (fun c => !(c = cb)) = [] := by simp
    have h2 : w.subs.filter (fun c => !(c = cb)) = w.subs := by
      apply List.filter_eq_self.mpr
      intro a ha
      simp only [Bool.not_eq_true']
      exact decide_eq_false (fun he => hfresh (he ▸ ha))
    rw [h1, h2, List.append_nil]
  refine ⟨rfl, rfl, hterm, ?_⟩
  intro p hp
  simp only [wNotify, List.mem_map, hterm] at hp
  obtain ⟨c, hc, hpc⟩ := hp
  rw [← hpc]
  exact fun he => hfresh (he ▸ hc)

/-- Claim C8 witness at a concrete wrapper and callback. -/
theorem onUpdate_immediate_snapshot_witness :
    (wOnUpdate wW 7).2 = [(7, wGetState wW)]
    ∧ (wOnUpdate wW 7).1.subs = wW.subs ++ [7]
    ∧ (wUnsubscribe (wOnUpdate wW 7).1 7).subs = wW.subs :=
  ⟨(onUpdate_immediate_snapshot wW 7 (by decide)).1,
   (onUpdate_immediate_snapshot wW 7 (by decide)).2.1,
   (onUpdate_immediate_snapshot wW 7 (by decide)).2.2.1⟩

/-- Claim C9: every provider other than deepseek — including the declared
openai, anthropic and gemini identifiers — makes `createAIModel` throw the
`AI provider not supported` error, so constructing an `AIAgent` with such a
provider fails at construction time with that error. -/
theorem createAIModel_unsupported (o : AIModelOptions) (ao : AIAgentOptions)
    (h : o.provider ≠ AIProvider.deepseek)
    (h2 : ao.provider ≠ AIProvider.deepseek) :
    createAIModel o = Except.error (unsupportedMsg o.provider)
    ∧ mkAIAgent ao = Except.error (unsupportedMsg ao.provider) := by
  constructor
  · cases hp : o.provider with
    | deepseek => exact absurd hp h
    | openai => simp [createAIModel, hp]
    | anthropic => simp [createAIModel, hp]
    | gemini => simp [createAIModel, hp]
  · cases hp : ao.provider with
    | deepseek => exact absurd hp h2
    | openai => simp [mkAIAgent, createAIModel, hp]
    | anthropic => simp [mkAIAgent, createAIModel, hp]
    | gemini => simp [mkAIAgent, createAIModel, hp]

/-- Claim C9 witness at the openai and anthropic providers. -/
theorem createAIModel_unsupported_witness :
    createAIModel moW = Except.error (unsupportedMsg AIProvider.openai)
    ∧ mkAIAgent aoW = Except.error (unsupportedMsg AIProvider.anthropic) :=
  ⟨(createAIModel_unsupported moW aoW (by decide) (by decide)).1,
   (createAIModel_unsupported moW aoW (by decide) (by decide)).2⟩

/-- Claim C3 (code bug evidence): a frame carrying an error payload does not
abort the stream.  The `throw new Error(parsed.error)` sits inside the same
`try` whose `catch` is meant to skip invalid JSON, so the thrown error is
swallowed: on the frame sequence consisting of exactly one well-formed
error-payload frame, the stream completes, `onComplete` is invoked with the
empty accumulation, and no error propagates to the caller — contradicting
the claimed abort-and-propagate behaviour (a malformed frame is indeed
skipped, as the first component shows). -/
theorem streamCompletion_error_payload_swallowed :
    streamCompletion true []
        [[SSEFrame.malformed (str "not json"),
          SSEFrame.parsed (some (str "hi")) none,
          SSEFrame.parsed none (some (str "boom"))]]
      = { tokens := [str "hi"], completed := some (str "hi"), threw := none }
    ∧ streamCompletion true [] [[SSEFrame.parsed none (some (str "boom"))]]
      = { tokens := [], completed := some [], threw := none } := by
  constructor <;> rfl

/-- A `sendText` call conserves the characters: injected-so-far followed by
the buffer gains exactly the sent text at its end. -/
theorem kbSend_conserve (k : KB) (t : Str) :
    (kbSend k t).injected ++ (kbSend k t).buffer = k.injected ++ k.buffer ++ t := by
  simp only [kbSend]
  split
  · simp [List.append_assoc]
  · split
    · rename_i hb
      simp [List.append_assoc, ← hb]
    · rename_i hb
      simp only [List.append_assoc, List.singleton_append]
      rw [← hb]

/-- A drain resumption conserves the characters. -/
theorem kbStep_conserve (k : KB) :
    (kbStep k).injected ++ (kbStep k).buffer = k.injected ++ k.buffer := by
  simp only [kbStep]
  split
  · split
    · rename_i hb
      simp [hb]
    · rename_i hb
      simp [hb]
  · rfl

/-- A sendText call preserves the no-drain-implies-empty-buffer invariant. -/
theorem kbSend_inv (k : KB) (t : Str) :
    (kbSend k t).processing = false → (kbSend k t).buffer = [] := by
  simp only [kbSend]
  split
  · rename_i hp
    intro hq
    simp only at hq
    rw [hq] at hp
    exact absurd hp (by simp)
  · split
    · rename_i hb
      intro _
      exact hb
    · intro hq
      simp at hq

/-- A drain resumption preserves the invariant. -/
theorem kbStep_inv (k : KB)
    (h : k.processing = false → k.buffer = []) :
    (kbStep k).processing = false → (kbStep k).buffer = [] := by
  simp only [kbStep]
  split
  · rename_i hp
    split
    · rename_i heq
      intro _
      exact heq
    · intro hq
      simp [hp] at hq
  · exact h

/-- Running an execution conserves the characters: what is injected plus what
remains buffered equals the initial content followed by everything sent, in
issue order. -/
theorem kbRun_conserve (evs : List KBEvent) :
    ∀ k : KB, (kbRun k evs).injected ++ (kbRun k evs).buffer
      = k.injected ++ k.buffer ++ sentOf evs := by
  induction evs with
  | nil => intro k; simp [kbRun, sentOf]
  | cons e evs ih =>
    intro k
    cases e with
    | send t =>
      simp only [kbRun, sentOf]
      rw [ih (kbSend k t), kbSend_conserve]
      simp [List.append_assoc]
    | tick =>
      simp only [kbRun, sentOf]
      rw [ih (kbStep k), kbStep_conserve]

/-- Running an execution preserves the invariant. -/
theorem kbRun_inv (evs : List KBEvent) :
    ∀ k : KB, (k.processing = false → k.buffer = []) →
      ((kbRun k evs).processing = false → (kbRun k evs).buffer = []) := by
  induction evs with
  | nil => intro k h; exact h
  | cons e evs ih =>
    intro k h
    cases e with
    | send t => exact ih (kbSend k t) (fun hq => kbSend_inv k t hq)
    | tick => exact ih (kbStep k) (kbStep_inv k h)

/-- Enough drain resumptions empty the buffer, injecting it in order. -/
theorem kbDrain (n : Nat) :
    ∀ k : KB, k.buffer.length = n → (k.processing = false → k.buffer = []) →
      (Nat.iterate kbStep n k).injected = k.injected ++ k.buffer
        ∧ (Nat.iterate kbStep n k).buffer = [] := by
  induction n with
  | zero =>
    intro k hl _
    have hb : k.buffer = [] := List.length_eq_zero.mp hl
    simp [Nat.iterate, hb]
  | succ n ih =>
    intro k hl hinv
    obtain ⟨c, rest, hb⟩ : ∃ c rest, k.buffer = c :: rest := by
      cases hbb : k.buffer with
      | nil => rw [hbb] at hl; simp at hl
      | cons c rest => exact ⟨c, rest, rfl⟩
    have hproc : k.processing = true := by
      by_contra hq
      simp only [Bool.not_eq_true] at hq
      rw [hinv hq] at hb
      exact absurd hb (by simp)
    have hstep : kbStep k = { k with buffer := rest, injected := k.injected ++ [c] } := by
      simp [kbStep, hproc, hb]
    have hrl : rest.length = n := by
      rw [hb] at hl
      simp only [List.length_cons] at hl
      omega
    rw [Function.iterate_succ_apply, hstep]
    have hres := ih { k with buffer := rest, injected := k.injected ++ [c] } hrl
      (by intro hq; simp [hproc] at hq)
    refine ⟨?_, hres.2⟩
    rw [hres.1, hb]
    simp

/-- Claim C5: for every interleaving of `sendText` calls with drain-loop
resumptions, started from a fresh keyboard queue, enough further drain
resumptions inject every character of every call exactly once, in the
concatenated issue order; and a `sendText` call arriving while a drain is in
progress only appends to the FIFO buffer — it never starts a second
concurrent drain. -/
theorem kb_fifo_exactly_once (evs : List KBEvent) :
    ((Nat.iterate kbStep (kbRun kb0 evs).buffer.length (kbRun kb0 evs)).injected
        = sentOf evs
      ∧ (Nat.iterate kbStep (kbRun kb0 evs).buffer.length (kbRun kb0 evs)).buffer
        = [])
    ∧ ∀ (k : KB) (t : Str), k.processing = true →
        kbSend k t = { k with buffer := k.buffer ++ t } := by
  constructor
  · have hcons := kbRun_conserve evs kb0
    have hinv := kbRun_inv evs kb0 (fun _ => rfl)
    have hdr := kbDrain (kbRun kb0 evs).buffer.length (kbRun kb0 evs) rfl hinv
    refine ⟨?_, hdr.2⟩
    rw [hdr.1, hcons]
    simp [kb0]
  · intro k t h
    simp [kbSend, h]

/-- Claim C5 witness at a concrete interleaved execution and a mid-drain
send. -/
theorem kb_fifo_exactly_once_witness :
    (Nat.iterate kbStep (kbRun kb0 evsW).buffer.length (kbRun kb0 evsW)).injected
      = sentOf evsW
    ∧ kbSend kProc (str "z") = { kProc with buffer := kProc.buffer ++ str "z" } :=
  ⟨(kb_fifo_exactly_once evsW).1.1,
   (kb_fifo_exactly_once evsW).2 kProc (str "z") rfl⟩

/-- Appending a singleton determines the last element. -/
theorem getLast?_append_singleton {α : Type} (l : List α) (a : α) :
    (l ++ [a]).getLast? = some a :=
  List.getLast?_concat _

/-- Counting user entries distributes over append. -/
theorem userCount_append (h1 h2 : List Entry) :
    userCount (h1 ++ h2) = userCount h1 + userCount h2 := by
  simp [userCount, List.filter_append]

/-- A history of non-user entries contains no user entries. -/
theorem userCount_nil_of_nonuser (l : List Entry)
    (h : ∀ x ∈ l, x.role ≠ Role.user) : userCount l = 0 := by
  induction l with
  | nil => rfl
  | cons e t ih =>
    have he : decide (e.role = Role.user) = false :=
      decide_eq_false (h e (List.mem_cons_self e t))
    simp only [userCount, List.filter_cons, he, Bool.false_eq_true, if_false]
    exact ih (fun x hx => h x (List.mem_cons_of_mem e hx))

/-- A successful screenshot step changes neither the history nor the
dispatched-action log. -/
theorem takeShot_ok_core (envs : Except JsError (Option Str)) (m m2 : AgentM)
    (sh : Option Str) (h : takeShot envs m = Except.ok (m2, sh)) :
    m2.core.history = m.core.history ∧ m2.executed = m.executed := by
  simp only [takeShot] at h
  split at h
  · cases envs with
    | error e => simp at h
    | ok v =>
      cases v with
      | none =>
        simp only [Except.ok.injEq, Prod.mk.injEq] at h
        rw [← h.1]
        exact ⟨rfl, rfl⟩
      | some s =>
        simp only [Except.ok.injEq, Prod.mk.injEq] at h
        rw [← h.1]
        exact ⟨rfl, rfl⟩
  · simp only [Except.ok.injEq, Prod.mk.injEq] at h
    rw [← h.1]
    exact ⟨rfl, rfl⟩

/-- The command-queue loop appends only assistant and system entries. -/
theorem runQueueLoop_hist (env : TurnEnv) (q : List Str) :
    ∀ (i : Nat) (m : AgentM), ∃ l : List Entry,
      (runQueueLoop env q i m).core.history = m.core.history ++ l
        ∧ ∀ x ∈ l, x.role ≠ Role.user := by
  induction q with
  | nil => intro i m; exact ⟨[], by simp [runQueueLoop], by simp⟩
  | cons cmd rest ih =>
    intro i m
    simp only [runQueueLoop]
    cases hsr : env.sendRes i with
    | error e =>
      refine ⟨[commandEntry cmd, cmdErrorEntry e], ?_, ?_⟩
      · simp [addToHistory, notifyUpdate, recordExec, setQueue]
      · intro x hx
        rcases List.mem_cons.mp hx with h | hx2
        · rw [h]; simp [commandEntry]
        · rw [List.mem_singleton.mp hx2]; simp [cmdErrorEntry]
    | ok u =>
      cases hsa : env.shotAfter i with
      | error e =>
        refine ⟨[commandEntry cmd, cmdErrorEntry e], ?_, ?_⟩
        · simp [addToHistory, notifyUpdate, recordExec, setQueue]
        · intro x hx
          rcases List.mem_cons.mp hx with h | hx2
          · rw [h]; simp [commandEntry]
          · rw [List.mem_singleton.mp hx2]; simp [cmdErrorEntry]
      | ok v =>
        cases v with
        | none =>
          obtain ⟨l, hl, hall⟩ := ih (i + 1)
            (recordExec (addToHistory (setQueue m rest) (commandEntry cmd))
              (cmd ++ ['\n']))
          refine ⟨commandEntry cmd :: l, ?_, ?_⟩
          · rw [hl]
            simp [addToHistory, notifyUpdate, recordExec, setQueue,
              List.append_assoc]
          · intro x hx
            rcases List.mem_cons.mp hx with h | hx2
            · rw [h]; simp [commandEntry]
            · exact hall x hx2
        | some s =>
          obtain ⟨l, hl, hall⟩ := ih (i + 1)
            (notifyUpdate (notifyUpdate (setShot
              (recordExec (addToHistory (setQueue m rest) (commandEntry cmd))
                (cmd ++ ['\n'])) s)))
          refine ⟨commandEntry cmd :: l, ?_, ?_⟩
          · rw [hl]
            simp [addToHistory, notifyUpdate, recordExec, setQueue, setShot,
              List.append_assoc]
          · intro x hx
            rcases List.mem_cons.mp hx with h | hx2
            · rw [h]; simp [commandEntry]
            · exact hall x hx2

/-- Queue processing appends only assistant and system entries. -/
theorem processCommandQueue_hist (env : TurnEnv) (m : AgentM) :
    ∃ l : List Entry,
      (processCommandQueue env m).core.history = m.core.history ++ l
        ∧ ∀ x ∈ l, x.role ≠ Role.user := by
  simp only [processCommandQueue]
  split
  · exact ⟨[], by simp, by simp⟩
  · obtain ⟨l, hl, hall⟩ :=
      runQueueLoop_hist env m.core.commandQueue 0 (setExec m true)
    exact ⟨l, by simpa [setExec] using hl, hall⟩

/-- The guarded turn body appends only assistant and system entries. -/
theorem turnTry_hist (env : TurnEnv) (m : AgentM) :
    ∃ l : List Entry, (turnTry env m).core.history = m.core.history ++ l
      ∧ ∀ x ∈ l, x.role ≠ Role.user := by
  cases hts : takeShot env.shot0 m with
  | error e =>
    refine ⟨[stepErrorEntry e], ?_, ?_⟩
    · simp [turnTry, hts, addToHistory, notifyUpdate]
    · intro x hx
      rw [List.mem_singleton.mp hx]
      simp [stepErrorEntry]
  | ok p =>
    obtain ⟨m2, sh⟩ := p
    have hm2 := takeShot_ok_core env.shot0 m m2 sh hts
    simp only [turnTry, turnResume, hts]
    split
    · refine ⟨[respEntry (getAIResponseText env m2) sh], ?_, ?_⟩
      · simp [addToHistory, notifyUpdate, setLastOutput, hm2.1]
      · intro x hx
        rw [List.mem_singleton.mp hx]
        simp [respEntry]
    · obtain ⟨l, hl, hall⟩ := processCommandQueue_hist env
        (pushQueue (setLastOutput (addToHistory m2
          (respEntry (getAIResponseText env m2) sh))
          (getAIResponseText env m2))
          (extractCommands (getAIResponseText env m2)))
      refine ⟨respEntry (getAIResponseText env m2) sh :: l, ?_, ?_⟩
      · rw [hl]
        simp [pushQueue, setLastOutput, addToHistory, notifyUpdate, hm2.1,
          List.append_assoc]
      · intro x hx
        rcases List.mem_cons.mp hx with h | hx2
        · rw [h]; simp [respEntry]
        · exact hall x hx2

/-- One turn never appends a user entry. -/
theorem processNextStep_userCount (env : TurnEnv) (m : AgentM) :
    userCount (processNextStep env m).core.history
      = userCount m.core.history := by
  obtain ⟨l, hl, hall⟩ := turnTry_hist env (notifyUpdate (setProcessing m true))
  show userCount (turnTry env (notifyUpdate (setProcessing m true))).core.history = _
  rw [hl]
  show userCount (m.core.history ++ l) = _
  rw [userCount_append, userCount_nil_of_nonuser l hall]
  omega

/-- Claim C1: at most one turn is in flight per session: `sendUserMessage`
returns the state untouched (no user entry, no turn) whenever a turn is in
flight or the status is not `running`; when accepted it appends exactly one
user entry and invokes exactly one turn on the extended history; and `start`
is a no-op unless the status is `idle`. -/
theorem sendUserMessage_gate (env : TurnEnv) (m : AgentM) (msg : Str) :
    (m.core.isProcessing = true ∨ m.core.status ≠ AgentStatus.running →
      sendUserMessage env m msg = m)
    ∧ (m.core.isProcessing = false → m.core.status = AgentStatus.running →
      sendUserMessage env m msg
          = processNextStep env (addToHistory m (userEntry msg))
        ∧ userCount (sendUserMessage env m msg).core.history
          = userCount m.core.history + 1)
    ∧ (m.core.status ≠ AgentStatus.idle → start env m = m) := by
  refine ⟨?_, ?_, ?_⟩
  · intro h
    simp only [sendUserMessage]
    rw [if_pos h]
  · intro h1 h2
    have hcond : ¬(m.core.isProcessing = true ∨ m.core.status ≠ AgentStatus.running) := by
      simp [h1, h2]
    have heq : sendUserMessage env m msg
        = processNextStep env (addToHistory m (userEntry msg)) := by
      simp only [sendUserMessage]
      rw [if_neg hcond]
    refine ⟨heq, ?_⟩
    rw [heq, processNextStep_userCount]
    show userCount (m.core.history ++ [userEntry msg]) = _
    rw [userCount_append]
    rfl
  · intro h
    simp only [start]
    rw [if_pos h]

/-- Claim C1 witness: a busy agent rejects the message and `start` is a no-op
off `idle`; a quiescent running agent accepts it as exactly one turn. -/
theorem sendUserMessage_gate_witness :
    sendUserMessage envW mBusy (str "hi") = mBusy
    ∧ sendUserMessage envW mW (str "hi")
        = processNextStep envW (addToHistory mW (userEntry (str "hi")))
    ∧ start envW mBusy = mBusy :=
  ⟨(sendUserMessage_gate envW mBusy (str "hi")).1 (Or.inl rfl),
   ((sendUserMessage_gate envW mW (str "hi")).2.1 rfl rfl).1,
   (sendUserMessage_gate envW mBusy (str "hi")).2.2 (by decide)⟩

/-- Claim C2 (code bug evidence): `stop()` cannot cancel the in-flight model
request, because `abortController.signal` is never passed to any fetch — the
option object `generateCompletion` hands to `fetch` has no `signal` key.
The aborted-request branch of `getAIResponse` is therefore unreachable via
`stop()`: the awaited request resolves with the real reply.  Resuming the
interrupted turn on the post-stop state records the real response as the
assistant entry, never records the literal `Request was cancelled.`
anywhere, and still extracts and dispatches the reply's fenced command to
the device after `stop()` — contradicting both halves of the claimed
behaviour. -/
theorem stop_cannot_cancel_inflight_turn :
    generateCompletionFetchOpts.signal = none
    ∧ (finalize (turnResume envW (str "```ls```") none mStopMid)).executed
        = mStopMid.executed ++ [str "ls" ++ ['\n']]
    ∧ respEntry (str "```ls```") none
        ∈ (finalize (turnResume envW (str "```ls```") none mStopMid)).core.history
    ∧ ∀ e ∈ (finalize (turnResume envW (str "```ls```") none mStopMid)).core.history,
        e.content ≠ cancelMsg := by
  refine ⟨rfl, ?_, ?_, ?_⟩ <;> decide

/-- Claim C6: every turn ends with the `isProcessing` flag cleared and the
final state published (the last published snapshot is the final state's),
and an exception thrown at a turn step is caught and recorded as an
error-typed entry rather than propagated — the embedded turn returns a plain
state, never an error. -/
theorem processNextStep_turn_boundary (env : TurnEnv) (m : AgentM) :
    (processNextStep env m).core.isProcessing = false
    ∧ (processNextStep env m).pubs.getLast?
        = some (getStateSnap (processNextStep env m).core)
    ∧ (∀ e : JsError, m.core.hasEmu = true → env.shot0 = Except.error e →
        (processNextStep env m).core.history
            = m.core.history ++ [stepErrorEntry e]
          ∧ (stepErrorEntry e).etype = some EntryType.error)
    ∧ ∀ (cmd : Str) (q : List Str) (i : Nat) (m' : AgentM) (e : JsError),
        env.sendRes i = Except.error e →
        (runQueueLoop env (cmd :: q) i m').core.history
            = m'.core.history ++ [commandEntry cmd, cmdErrorEntry e]
          ∧ (cmdErrorEntry e).etype = some EntryType.error := by
  refine ⟨rfl, ?_, ?_, ?_⟩
  · exact getLast?_append_singleton _ _
  · intro e hemu hshot
    refine ⟨?_, rfl⟩
    simp [processNextStep, finalize, turnTry, takeShot, notifyUpdate,
      setProcessing, addToHistory, hemu, hshot]
  · intro cmd q i m' e hsr
    refine ⟨?_, rfl⟩
    simp [runQueueLoop, hsr, addToHistory, notifyUpdate, recordExec, setQueue,
      List.append_assoc]

/-- Claim C6 witness: a turn whose screenshot await rejects still ends with
the flag cleared and exactly one error-typed entry appended. -/
theorem processNextStep_turn_boundary_witness :
    (processNextStep envThrow mEmu).core.isProcessing = false
    ∧ (processNextStep envThrow mEmu).core.history
        = mEmu.core.history ++ [stepErrorEntry eW] :=
  ⟨(processNextStep_turn_boundary envThrow mEmu).1,
   ((processNextStep_turn_boundary envThrow mEmu).2.2.1 eW rfl rfl).1⟩

end Peppa
